import Mathlib

/-!
Verification of the Singleton pattern examples of `design-patterns-cpp`.

The development shallowly embeds three source files:

* `src/Singleton/RealWorld/main.cc` — the `Logger` singleton: an ordered
  severity enumeration (`Logger::Level`), a threshold field `level_`, a
  message counter `count_`, a setter `Logger::level`, and the guarded
  `Logger::log` method that drops messages below the threshold and otherwise
  increments the counter and prints one formatted line.
* `src/Singleton/Conceptual/ThreadSafe/main.cc` — `Singleton::GetInstance`
  with double-checked locking over an atomic pointer and a mutex.
* `src/Singleton/Conceptual/NonThreadSafe/main.cc` — the parameterized
  `Singleton::GetInstance(value)` that stores its argument only on the very
  first call.

Machine state (the C++ static members) is passed explicitly; printing is
modelled by returning the emitted lines.
-/

namespace DesignPatterns

/-! ## Logger (src/Singleton/RealWorld/main.cc) -/

/-- `Logger::Level`, `enum class Level : unsigned { debug = 0, info = 1,
warning = 2, error = 3 }` (main.cc lines 50–56). -/
inductive Level where
  | debug
  | info
  | warning
  | error
deriving DecidableEq, Repr

/-- The numeric value of each enumerator, as fixed by the C++ enum
initializers; `Logger::log` compares levels through `static_cast<int>`. -/
def Level.toNat : Level → Nat
  | .debug => 0
  | .info => 1
  | .warning => 2
  | .error => 3

/-- `to_string(Logger::Level)` (main.cc lines 149–163).  The `default` branch
returning `"[LEVEL]"` is unreachable for the four declared enumerators, which
are the only values the Lean type has. -/
def to_string : Level → String
  | .debug => "[DEBUG]"
  | .info => "[INFO]"
  | .warning => "[WARNING]"
  | .error => "[ERROR]"

/-- The modulus of the counter: `count_` is a `std::size_t`, a 64-bit
unsigned integer, so `++count_` wraps modulo `2 ^ 64`. -/
def sizeTMod : Nat := 2 ^ 64

/-- The mutable static state of the `Logger` class: `count_` and `level_`
(main.cc lines 100–101).  `count` carries the value of the `std::size_t`
counter, advanced modulo `sizeTMod` by `Logger.log`.  The mutex and the
output stream are not data: the mutex serializes calls (modelled by the
sequential order of operations) and the stream receives the emitted lines
(modelled by returning them). -/
structure LoggerState where
  count : Nat
  level : Level
deriving DecidableEq, Repr

/-- The initial static state: `std::size_t Logger::count_{0}` and
`Logger::Level Logger::level_{Logger::Level::debug}` (main.cc lines 110–111). -/
def initLogger : LoggerState := { count := 0, level := Level.debug }

/-- One emitted log line, kept structured (counter value, level, message);
`Line.render` produces the exact text written to the stream. -/
structure Line where
  count : Nat
  level : Level
  text : String
deriving DecidableEq, Repr

/-- The exact text `Logger::log` writes for an accepted message:
`os_ << ++count_ << '\t' << to_string(level) << "\n\t" << message << '\n'`
(main.cc lines 179–180). -/
def Line.render (li : Line) : String :=
  Nat.repr li.count ++ "\t" ++ to_string li.level ++ "\n\t" ++ li.text ++ "\n"

/-- `Logger::log(message, level)` (main.cc lines 175–181): under the mutex,
if `static_cast<int>(level) < static_cast<int>(instance().level_)` the call
returns with no effect; otherwise the counter is pre-incremented and the line
is printed with the incremented value.  `++count_` is `std::size_t`
arithmetic, so the increment wraps modulo `2 ^ 64`. -/
def Logger.log (message : String) (level : Level) (st : LoggerState) :
    LoggerState × Option Line :=
  if level.toNat < st.level.toNat then (st, none)
  else ({ st with count := (st.count + 1) % sizeTMod },
        some { count := (st.count + 1) % sizeTMod, level := level,
               text := message })

/-- The default argument of `Logger::log`:
`static void log(std::string const &, Level level = Level::debug)`
(main.cc line 66). -/
def defaultLogLevel : Level := Level.debug

/-- `Logger::level(level)` (main.cc lines 138–141): under the mutex, writes
the argument to `instance().level_`. -/
def Logger.setLevel (level : Level) (st : LoggerState) : LoggerState :=
  { st with level := level }

/-- A client operation on the logger: one `Logger::level` or `Logger::log`
call.  The mutex makes every execution a sequence of such operations. -/
inductive Op where
  | setLevel (l : Level)
  | log (text : String) (l : Level)
deriving DecidableEq, Repr

/-- Run a sequence of operations, collecting the emitted lines in order. -/
def run (st : LoggerState) : List Op → LoggerState × List Line
  | [] => (st, [])
  | Op.setLevel l :: ops => run (Logger.setLevel l st) ops
  | Op.log t l :: ops =>
    let p := Logger.log t l st
    let q := run p.1 ops
    (q.1, p.2.toList ++ q.2)

/-- The number of accepted (at-or-above-threshold) `log` calls in a sequence
of operations, tracking the threshold as `setLevel` changes it. -/
def acceptedCount (st : LoggerState) : List Op → Nat
  | [] => 0
  | Op.setLevel l :: ops => acceptedCount (Logger.setLevel l st) ops
  | Op.log t l :: ops =>
    (if l.toNat < st.level.toNat then 0 else 1) + acceptedCount (Logger.log t l st).1 ops

/-- A sequence of operations containing no `setLevel` call. -/
def allLogs (ops : List Op) : Prop :=
  ∀ o ∈ ops, ∀ l : Level, o ≠ Op.setLevel l

end DesignPatterns

namespace DesignPatterns

lemma map_mod_range' (n : Nat) : ∀ a b : Nat, a % sizeTMod = b % sizeTMod →
    (List.range' a n).map (fun i => i % sizeTMod) =
      (List.range' b n).map (fun i => i % sizeTMod) := by
  induction n with
  | zero => intro a b _; rfl
  | succ n ih =>
    intro a b h
    simp only [List.range'_succ, List.map_cons]
    have h' : (a + 1) % sizeTMod = (b + 1) % sizeTMod := by
      rw [← Nat.mod_add_mod, h, Nat.mod_add_mod]
    rw [h, ih (a + 1) (b + 1) h']

lemma run_spec (ops : List Op) : ∀ st : LoggerState,
    (run st ops).2.map Line.count =
      (List.range' (st.count + 1) (run st ops).2.length).map
        (fun i => i % sizeTMod) ∧
    (run st ops).2.length = acceptedCount st ops := by
  induction ops with
  | nil => intro st; simp [run, acceptedCount]
  | cons o ops ih =>
    intro st
    cases o with
    | setLevel l =>
      simpa [run, acceptedCount, Logger.setLevel] using ih (Logger.setLevel l st)
    | log t l =>
      by_cases h : l.toNat < st.level.toNat
      · simpa [run, acceptedCount, Logger.log, h] using ih st
      · have hih := ih (Logger.log t l st).1
        simp only [Logger.log, if_neg h] at hih
        obtain ⟨h1, h3⟩ := hih
        simp only [run, acceptedCount, Logger.log, if_neg h, Option.toList_some,
          List.singleton_append, List.length_cons, List.map_cons]
        refine ⟨?_, ?_⟩
        · rw [List.range'_succ]
          simp only [List.map_cons]
          rw [h1, map_mod_range' _ ((st.count + 1) % sizeTMod + 1)
            (st.count + 1 + 1) (by rw [Nat.mod_add_mod])]
        · rw [h3]; omega

lemma run_level_allLogs (ops : List Op) : ∀ st : LoggerState, allLogs ops →
    (run st ops).1.level = st.level := by
  induction ops with
  | nil => intro st _; rfl
  | cons o ops ih =>
    intro st hall
    cases o with
    | setLevel l => exact absurd rfl (hall (Op.setLevel l) (by simp) l)
    | log t l =>
      have hall' : allLogs ops := fun o ho => hall o (by simp [ho])
      by_cases h : l.toNat < st.level.toNat
      · simpa [run, Logger.log, h] using ih st hall'
      · simpa [run, Logger.log, h] using
          ih { st with count := (st.count + 1) % sizeTMod } hall'

lemma run_lines_level (ops : List Op) : ∀ st : LoggerState, allLogs ops →
    ∀ li ∈ (run st ops).2, st.level.toNat ≤ li.level.toNat := by
  induction ops with
  | nil => intro st _ li hli; simp [run] at hli
  | cons o ops ih =>
    intro st hall li hli
    cases o with
    | setLevel l => exact absurd rfl (hall (Op.setLevel l) (by simp) l)
    | log t l =>
      have hall' : allLogs ops := fun o ho => hall o (by simp [ho])
      by_cases h : l.toNat < st.level.toNat
      · simp only [run, Logger.log, if_pos h, Option.toList_none,
          List.nil_append] at hli
        exact ih st hall' li hli
      · simp only [run, Logger.log, if_neg h, Option.toList_some,
          List.singleton_append, List.mem_cons] at hli
        rcases hli with rfl | hli
        · exact Nat.le_of_not_lt h
        · exact ih { st with count := (st.count + 1) % sizeTMod } hall' li hli

/-- Whether an operation is a `log` call accepted at threshold `lv`. -/
def acceptsAt (lv : Level) : Op → Bool
  | Op.setLevel _ => false
  | Op.log _ l => decide (lv.toNat ≤ l.toNat)

lemma run_length_countP (ops : List Op) : ∀ st : LoggerState, allLogs ops →
    (run st ops).2.length = ops.countP (acceptsAt st.level) := by
  induction ops with
  | nil => intro st _; rfl
  | cons o ops ih =>
    intro st hall
    cases o with
    | setLevel l => exact absurd rfl (hall (Op.setLevel l) (by simp) l)
    | log t l =>
      have hall' : allLogs ops := fun o ho => hall o (by simp [ho])
      by_cases h : l.toNat < st.level.toNat
      · have hc : acceptsAt st.level (Op.log t l) = false := by
          simp [acceptsAt, Nat.not_le.mpr h]
        simp only [run, Logger.log, if_pos h, Option.toList_none,
          List.nil_append, List.countP_cons, hc]
        simpa using ih st hall'
      · have hc : acceptsAt st.level (Op.log t l) = true := by
          simp [acceptsAt, Nat.le_of_not_lt h]
        have hih := ih { st with count := (st.count + 1) % sizeTMod } hall'
        simp only [show ({ st with count := (st.count + 1) % sizeTMod } :
            LoggerState).level = st.level from rfl] at hih
        simp only [run, Logger.log, if_neg h, Option.toList_some,
          List.singleton_append, List.length_cons, List.countP_cons, hc, hih]
        simp

/-- Claim C1: a `log(text, level)` call is silently dropped exactly when the
numeric value of `level` is strictly below the current threshold; a dropped
call produces no line and leaves counter and threshold unchanged (no error
channel exists in the return type), and a call at the threshold itself is not
dropped (the comparison is strict). -/
theorem claim_C1 (t : String) (l : Level) (st : LoggerState) :
    ((Logger.log t l st).2 = none ↔ l.toNat < st.level.toNat) ∧
    (l.toNat < st.level.toNat → Logger.log t l st = (st, none)) ∧
    (l = st.level → (Logger.log t l st).2 ≠ none) := by
  unfold Logger.log
  by_cases h : l.toNat < st.level.toNat
  · refine ⟨by simp [h], fun _ => by simp [h], fun he => ?_⟩
    subst he; exact absurd h (Nat.lt_irrefl _)
  · simp [h]

theorem claim_C1_witness :
    Logger.log "check" Level.debug { count := 5, level := Level.info } =
      ({ count := 5, level := Level.info }, none) :=
  (claim_C1 "check" Level.debug { count := 5, level := Level.info }).2.1
    (by decide)

/-- Claim C2 as stated is false at the wrap boundary of the `std::size_t`
counter: at `count_ = 2 ^ 64 - 1` an accepted call wraps the counter to `0`
instead of incrementing it by exactly one. -/
theorem claim_C2_counterexample :
    (Logger.log "m" Level.debug
      { count := sizeTMod - 1, level := Level.debug }).1.count = 0 ∧
    ¬ ((Logger.log "m" Level.debug
        { count := sizeTMod - 1, level := Level.debug }).1.count =
          (sizeTMod - 1) + 1) := by
  have hc : (Logger.log "m" Level.debug
      { count := sizeTMod - 1, level := Level.debug }).1.count =
      (sizeTMod - 1 + 1) % sizeTMod := rfl
  rw [hc]
  norm_num [sizeTMod]

/-- Claim C2 (amended): an accepted call (level at or above the threshold)
advances the counter by one modulo `2 ^ 64` (`count_` is `std::size_t`, which
wraps; the advance is exactly one whenever `count + 1 < 2 ^ 64`) and emits
exactly one line whose rendered text is
`"<counter>\t[<LEVEL>]\n\t<message>\n"` with the wrapped post-increment
counter value and the tag naming the call's level; state change and emission
occur in the same case of the function, never one without the other. -/
theorem claim_C2 (t : String) (l : Level) (st : LoggerState)
    (h : st.level.toNat ≤ l.toNat) :
    (Logger.log t l st).1 =
      { count := (st.count + 1) % sizeTMod, level := st.level } ∧
    (Logger.log t l st).2 =
      some { count := (st.count + 1) % sizeTMod, level := l, text := t } ∧
    (st.count + 1 < sizeTMod → (Logger.log t l st).1.count = st.count + 1) ∧
    Line.render { count := (st.count + 1) % sizeTMod, level := l, text := t } =
      Nat.repr ((st.count + 1) % sizeTMod) ++ "\t" ++ to_string l ++ "\n\t" ++
        t ++ "\n" ∧
    to_string Level.debug = "[DEBUG]" ∧ to_string Level.info = "[INFO]" ∧
    to_string Level.warning = "[WARNING]" ∧ to_string Level.error = "[ERROR]" := by
  have hlog : Logger.log t l st =
      ({ count := (st.count + 1) % sizeTMod, level := st.level },
       some { count := (st.count + 1) % sizeTMod, level := l, text := t }) := by
    unfold Logger.log
    rw [if_neg (Nat.not_lt.mpr h)]
  refine ⟨by rw [hlog], by rw [hlog], fun hlt => ?_, rfl, rfl, rfl, rfl, rfl⟩
  rw [hlog]
  exact Nat.mod_eq_of_lt hlt

theorem claim_C2_witness :
    (Logger.log "extra" Level.warning { count := 1, level := Level.info }).2 =
      some { count := 2, level := Level.warning, text := "extra" } := by
  have h := (claim_C2 "extra" Level.warning { count := 1, level := Level.info }
    (by decide)).2.1
  simpa [sizeTMod] using h

lemma acceptedCount_replicate_debug (t : String) :
    ∀ (n : Nat) (st : LoggerState), st.level = Level.debug →
      acceptedCount st (List.replicate n (Op.log t Level.debug)) = n := by
  intro n
  induction n with
  | zero => intro st _; rfl
  | succ n ih =>
    intro st hst
    rw [List.replicate_succ]
    simp only [acceptedCount, hst]
    have hlv : (Logger.log t Level.debug st).1.level = Level.debug := by
      unfold Logger.log
      rw [hst]
      simp [Level.toNat]
    rw [ih _ hlv]
    simp [Level.toNat]
    omega

/-- Claim C3 as stated is false of the wrapping `std::size_t` counter: after
`2 ^ 64` accepted calls from the initial state the counter has wrapped, a
line carrying counter value `0` has been emitted, and the emitted counters
are not the gap-free sequence `1, …, k`. -/
theorem claim_C3_counterexample :
    ¬ ((run initLogger
          (List.replicate sizeTMod (Op.log "m" Level.debug))).2.map Line.count =
        List.range' 1 (acceptedCount initLogger
          (List.replicate sizeTMod (Op.log "m" Level.debug)))) := by
  intro hEq
  obtain ⟨h1, h3⟩ :=
    run_spec (List.replicate sizeTMod (Op.log "m" Level.debug)) initLogger
  rw [h3] at h1
  have hacc : acceptedCount initLogger
      (List.replicate sizeTMod (Op.log "m" Level.debug)) = sizeTMod :=
    acceptedCount_replicate_debug "m" sizeTMod initLogger rfl
  have hmem : (0 : Nat) ∈ (run initLogger
      (List.replicate sizeTMod (Op.log "m" Level.debug))).2.map Line.count := by
    rw [h1, hacc]
    refine List.mem_map.mpr ⟨sizeTMod, ?_, Nat.mod_self sizeTMod⟩
    rw [List.mem_range'_1]
    refine ⟨?_, ?_⟩ <;> norm_num [initLogger, sizeTMod]
  rw [hEq, hacc, List.mem_range'_1] at hmem
  omega

/-- Claim C3 (amended): starting from the initial state (counter 0), for
every finite sequence of `setLevel` and `log` operations, the counter values
carried by the emitted lines are exactly `1 % 2^64, 2 % 2^64, …, k % 2^64`
in emission order, where `k` is the number of accepted log calls and the
`std::size_t` counter wraps; whenever `k < 2 ^ 64` they are exactly
`1, 2, …, k` (the list `List.range' 1 k`: strictly increasing, no duplicate,
no gap), and the number of emitted lines equals `k`. -/
theorem claim_C3 (ops : List Op) :
    (run initLogger ops).2.map Line.count =
      (List.range' 1 (acceptedCount initLogger ops)).map
        (fun i => i % sizeTMod) ∧
    (run initLogger ops).2.length = acceptedCount initLogger ops ∧
    (acceptedCount initLogger ops < sizeTMod →
      (run initLogger ops).2.map Line.count =
        List.range' 1 (acceptedCount initLogger ops)) := by
  obtain ⟨h1, h3⟩ := run_spec ops initLogger
  rw [h3] at h1
  have h1' : (run initLogger ops).2.map Line.count =
      (List.range' 1 (acceptedCount initLogger ops)).map
        (fun i => i % sizeTMod) := h1
  refine ⟨h1', h3, fun hk => ?_⟩
  rw [h1']
  have hid : (List.range' 1 (acceptedCount initLogger ops)).map
      (fun i => i % sizeTMod) =
      (List.range' 1 (acceptedCount initLogger ops)).map id := by
    apply List.map_congr_left
    intro a ha
    rw [List.mem_range'_1] at ha
    exact Nat.mod_eq_of_lt (by omega)
  rw [hid, List.map_id]

theorem claim_C3_witness :
    (run initLogger [Op.log "a" Level.debug, Op.log "b" Level.error]).2.map
        Line.count =
      List.range' 1 (acceptedCount initLogger
        [Op.log "a" Level.debug, Op.log "b" Level.error]) :=
  (claim_C3 [Op.log "a" Level.debug, Op.log "b" Level.error]).2.2 (by decide)

/-- Claim C7: `Logger::level(v)` writes `v` to the threshold and changes
nothing else: the counter is unchanged and the call emits no line. -/
theorem claim_C7 (v : Level) (st : LoggerState) :
    Logger.setLevel v st = { count := st.count, level := v } ∧
    run st [Op.setLevel v] = ({ count := st.count, level := v }, []) :=
  ⟨rfl, rfl⟩

/-- Claim C8: `Logger::level` is idempotent: setting the same value twice in
a row yields exactly the same final state and the same (empty) output as
setting it once. -/
theorem claim_C8 (v : Level) (st : LoggerState) :
    run st [Op.setLevel v, Op.setLevel v] = run st [Op.setLevel v] := rfl

/-- Claim C9 as stated is false at the wrap boundary of the `std::size_t`
counter: at threshold `debug` and `count_ = 2 ^ 64 - 1`, a bare `log(text)`
call is emitted but the counter wraps to `0` rather than advancing to
`count_ + 1`. -/
theorem claim_C9_counterexample :
    ¬ (Logger.log "m" defaultLogLevel
        { count := sizeTMod - 1, level := Level.debug } =
      ({ count := sizeTMod - 1 + 1, level := Level.debug },
       some { count := sizeTMod - 1 + 1, level := Level.debug,
              text := "m" })) := by
  intro hEq
  have hc : (sizeTMod - 1 + 1) % sizeTMod = sizeTMod - 1 + 1 :=
    congrArg (fun p => p.1.count) hEq
  norm_num [sizeTMod] at hc

/-- Claim C9 (amended): the default level argument of `Logger::log` is
`debug` (the lowest level) and the initial state is counter 0, threshold
`debug`; hence while no `setLevel` has run the threshold is still `debug`
and every bare `log(text)` call is emitted, with the counter advanced by one
modulo `2 ^ 64` (`std::size_t` wrap), while after `setLevel` to any level
strictly above `debug` a bare `log(text)` call is silently dropped. -/
theorem claim_C9 :
    defaultLogLevel = Level.debug ∧
    initLogger = { count := 0, level := Level.debug } ∧
    (∀ ops, allLogs ops → (run initLogger ops).1.level = Level.debug) ∧
    (∀ t (st : LoggerState), st.level = Level.debug →
      Logger.log t defaultLogLevel st =
        ({ st with count := (st.count + 1) % sizeTMod },
         some { count := (st.count + 1) % sizeTMod, level := Level.debug,
                text := t })) ∧
    (∀ v : Level, Level.debug.toNat < v.toNat → ∀ t (st : LoggerState),
      Logger.log t defaultLogLevel (Logger.setLevel v st) =
        (Logger.setLevel v st, none)) := by
  refine ⟨rfl, rfl, fun ops h => run_level_allLogs ops initLogger h,
    fun t st h => ?_, fun v hv t st => ?_⟩
  · unfold Logger.log defaultLogLevel
    rw [h]; simp [Level.toNat]
  · unfold Logger.log
    rw [if_pos (show (defaultLogLevel).toNat <
        (Logger.setLevel v st).level.toNat from hv)]

theorem claim_C9_witness :
    Logger.log "simple development check" defaultLogLevel
        (Logger.setLevel Level.info initLogger) =
      (Logger.setLevel Level.info initLogger, none) :=
  claim_C9.2.2.2.2 Level.info (by decide) "simple development check" initLogger

/-- Claim C6: if the threshold is set to `info` and then exactly one call is
issued at each of the four levels, in any order, then exactly 3 lines are
emitted, carrying counter values 1, 2, 3 in processing order, and no line of
the `debug` call appears. -/
theorem claim_C6 (t1 t2 t3 t4 : String) (ops : List Op)
    (h : ops.Perm [Op.log t1 Level.debug, Op.log t2 Level.info,
                   Op.log t3 Level.warning, Op.log t4 Level.error]) :
    (run initLogger (Op.setLevel Level.info :: ops)).2.length = 3 ∧
    (run initLogger (Op.setLevel Level.info :: ops)).2.map Line.count = [1, 2, 3] ∧
    ∀ li ∈ (run initLogger (Op.setLevel Level.info :: ops)).2,
      li.level ≠ Level.debug := by
  have hall : allLogs ops := by
    intro o ho l
    have hmem : o ∈ [Op.log t1 Level.debug, Op.log t2 Level.info,
        Op.log t3 Level.warning, Op.log t4 Level.error] := h.mem_iff.mp ho
    simp only [List.mem_cons, List.not_mem_nil, or_false] at hmem
    rcases hmem with rfl | rfl | rfl | rfl <;> simp
  have hst : run initLogger (Op.setLevel Level.info :: ops) =
      run { count := 0, level := Level.info } ops := rfl
  rw [hst]
  have hlen : (run { count := 0, level := Level.info } ops).2.length = 3 := by
    rw [run_length_countP ops { count := 0, level := Level.info } hall,
      List.Perm.countP_eq _ h]
    simp [List.countP_cons, acceptsAt, Level.toNat]
  refine ⟨hlen, ?_, ?_⟩
  · obtain ⟨h1, _⟩ := run_spec ops { count := 0, level := Level.info }
    rw [hlen] at h1
    rw [h1]
    rfl
  · intro li hli hdbg
    have hge := run_lines_level ops { count := 0, level := Level.info } hall li hli
    rw [hdbg] at hge
    exact absurd hge (by decide)

theorem claim_C6_witness :
    (run initLogger (Op.setLevel Level.info ::
      [Op.log "a" Level.debug, Op.log "b" Level.info,
       Op.log "c" Level.warning, Op.log "d" Level.error])).2.map Line.count =
      [1, 2, 3] :=
  (claim_C6 "a" "b" "c" "d" _ (List.Perm.refl _)).2.1

/-! ## Parameterized Singleton (src/Singleton/Conceptual/NonThreadSafe/main.cc) -/

/-- `Singleton::GetInstance(value)` (main.cc lines 98–110).  The static field
`Singleton* Singleton::singleton_` is modelled by the `value_` of the pointed
instance (`none` = `nullptr`): if null, a new instance storing `value` is
created; otherwise the argument is ignored.  The second component is the
`value()` of the returned instance (main.cc lines 86–88). -/
def Singleton.GetInstance (value : String) :
    Option String → Option String × String
  | none => (some value, value)
  | some stored => (some stored, stored)

/-- Run a sequence of `GetInstance` calls with the given arguments, collecting
the `value()` of each returned instance. -/
def Singleton.runGetInstance (st : Option String) :
    List String → Option String × List String
  | [] => (st, [])
  | v :: vs =>
    let p := Singleton.GetInstance v st
    let q := Singleton.runGetInstance p.1 vs
    (q.1, p.2 :: q.2)

lemma runGetInstance_some (w : String) (vs : List String) :
    Singleton.runGetInstance (some w) vs =
      (some w, List.replicate vs.length w) := by
  induction vs with
  | nil => rfl
  | cons v vs ih =>
    simp [Singleton.runGetInstance, Singleton.GetInstance, ih,
      List.replicate_succ]

/-- Claim C10: the `value` argument of the non-thread-safe `GetInstance` is
stored only by the very first call; every later call silently ignores its
argument and returns the instance holding the first call's value — the field
is never overwritten and the return value is indistinguishable from the
stored case. -/
theorem claim_C10 (v1 v2 : String) (vs : List String) :
    Singleton.GetInstance v1 none = (some v1, v1) ∧
    Singleton.GetInstance v2 (some v1) = (some v1, v1) ∧
    Singleton.runGetInstance none (v1 :: vs) =
      (some v1, List.replicate (vs.length + 1) v1) := by
  refine ⟨rfl, rfl, ?_⟩
  simp [Singleton.runGetInstance, Singleton.GetInstance,
    runGetInstance_some, List.replicate_succ]

/-! ## Instance accessor at the address level
(src/Singleton/Conceptual/ThreadSafe/main.cc, `Singleton::GetInstance`, and
src/Singleton/RealWorld/main.cc, `Logger::instance`) -/

/-- One serialized call to the instance accessor.  The state is the stored
pointer (`none` = not yet initialized); `fresh` is the address a construction
would allocate.  Returns the new state, the returned address, and whether the
constructor ran. -/
def GetInstanceAddr (st : Option Nat) (fresh : Nat) :
    Option Nat × Nat × Bool :=
  match st with
  | none => (some fresh, fresh, true)
  | some a => (some a, a, false)

/-- Run `n` accessor calls in sequence, collecting the returned addresses and
counting constructor executions. -/
def runGetInstanceAddr (st : Option Nat) (fresh : Nat) :
    Nat → Option Nat × List Nat × Nat
  | 0 => (st, [], 0)
  | Nat.succ n =>
    let p := GetInstanceAddr st fresh
    let q := runGetInstanceAddr p.1 fresh n
    (q.1, p.2.1 :: q.2.1, (if p.2.2 then 1 else 0) + q.2.2)

lemma runGetInstanceAddr_some (a fresh : Nat) (n : Nat) :
    runGetInstanceAddr (some a) fresh n = (some a, List.replicate n a, 0) := by
  induction n with
  | zero => rfl
  | succ n ih =>
    simp [runGetInstanceAddr, GetInstanceAddr, ih, List.replicate_succ]

/-- Claim C4: the instance is constructed at most once; the stored pointer,
once set, never changes (the only transition is the one-way
uninitialized-to-initialized step on the first access); and any two accessor
calls return the same address, however many calls occur. -/
theorem claim_C4 (st : Option Nat) (fresh n : Nat) :
    (runGetInstanceAddr st fresh n).2.2 ≤ 1 ∧
    (∀ a, st = some a → (runGetInstanceAddr st fresh n).1 = some a ∧
      (runGetInstanceAddr st fresh n).2.2 = 0) ∧
    (st = none → 0 < n → (runGetInstanceAddr st fresh n).1 = some fresh) ∧
    (∀ x ∈ (runGetInstanceAddr st fresh n).2.1,
      ∀ y ∈ (runGetInstanceAddr st fresh n).2.1, x = y) := by
  cases st with
  | some a =>
    rw [runGetInstanceAddr_some]
    refine ⟨by simp, fun b hb => by simp_all, by simp, ?_⟩
    intro x hx y hy
    simp only [List.eq_of_mem_replicate hx, List.eq_of_mem_replicate hy]
  | none =>
    cases n with
    | zero => simp [runGetInstanceAddr]
    | succ n =>
      have hrun : runGetInstanceAddr none fresh (Nat.succ n) =
          (some fresh, fresh :: List.replicate n fresh, 1) := by
        simp [runGetInstanceAddr, GetInstanceAddr, runGetInstanceAddr_some]
      rw [hrun]
      refine ⟨by simp, fun b hb => by simp_all, by simp, ?_⟩
      intro x hx y hy
      simp only [List.mem_cons] at hx hy
      have hx' : x = fresh := by
        rcases hx with rfl | hx; · rfl
        · exact List.eq_of_mem_replicate hx
      have hy' : y = fresh := by
        rcases hy with rfl | hy; · rfl
        · exact List.eq_of_mem_replicate hy
      rw [hx', hy']

theorem claim_C4_witness :
    (runGetInstanceAddr (some 7) 3 2).1 = some 7 ∧
    (runGetInstanceAddr (some 7) 3 2).2.2 = 0 :=
  (claim_C4 (some 7) 3 2).2.1 7 rfl

/-! ## Interleaved double-checked locking
(src/Singleton/Conceptual/ThreadSafe/main.cc, `Singleton::GetInstance`,
lines 108–119)

Each thread runs: a fast-path read of the atomic `pinstance`; if non-null,
return it; otherwise acquire `mutex_`, re-check `pinstance`, construct only
if still null, release, return.  Reads of the atomic pointer interleave
freely with other threads; the mutex-protected critical section (re-check,
possible construction, release) executes without interference because the
mutex excludes every other writer. -/

/-- The control point of one thread inside `GetInstance`: before the
fast-path read; after a null fast-path read, blocked on the mutex; holding
the mutex before the re-check; or returned with an address. -/
inductive TPC where
  | start
  | waiting
  | locked
  | done (ret : Nat)
deriving DecidableEq

/-- The shared state: the atomic `pinstance` (`none` = `nullptr`), the mutex,
an allocator for fresh addresses, the number of constructor executions, and
each thread's control point (unboundedly many threads). -/
structure DCLState where
  pinstance : Option Nat
  mutexFree : Bool
  nextAddr : Nat
  constructions : Nat
  threads : Nat → TPC

/-- Initial state: null pointer, free mutex, no constructions, every thread
about to make its first call. -/
def DCLInit : DCLState :=
  { pinstance := none, mutexFree := true, nextAddr := 0, constructions := 0,
    threads := fun _ => TPC.start }

/-- One interleaving step: some thread executes its next instruction of
`GetInstance` (main.cc lines 108–119). -/
inductive DCLStep : DCLState → DCLState → Prop where
  | fastHit (s : DCLState) (i a : Nat) (hi : s.threads i = TPC.start)
      (hp : s.pinstance = some a) :
      DCLStep s { s with threads := Function.update s.threads i (TPC.done a) }
  | fastNull (s : DCLState) (i : Nat) (hi : s.threads i = TPC.start)
      (hp : s.pinstance = none) :
      DCLStep s { s with threads := Function.update s.threads i TPC.waiting }
  | acquire (s : DCLState) (i : Nat) (hi : s.threads i = TPC.waiting)
      (hm : s.mutexFree = true) :
      DCLStep s { s with mutexFree := false,
                         threads := Function.update s.threads i TPC.locked }
  | checkHit (s : DCLState) (i a : Nat) (hi : s.threads i = TPC.locked)
      (hp : s.pinstance = some a) :
      DCLStep s { s with mutexFree := true,
                         threads := Function.update s.threads i (TPC.done a) }
  | construct (s : DCLState) (i : Nat) (hi : s.threads i = TPC.locked)
      (hp : s.pinstance = none) :
      DCLStep s { s with pinstance := some s.nextAddr,
                         nextAddr := s.nextAddr + 1,
                         constructions := s.constructions + 1,
                         mutexFree := true,
                         threads :=
                           Function.update s.threads i (TPC.done s.nextAddr) }

/-- States reachable from the initial state by interleaving steps. -/
inductive DCLReach : DCLState → Prop where
  | init : DCLReach DCLInit
  | next {s t : DCLState} : DCLReach s → DCLStep s t → DCLReach t

/-- The inductive invariant: at most one construction; a null pointer means
no construction has happened; every returned address is the current pointer. -/
def DCLInv (s : DCLState) : Prop :=
  s.constructions ≤ 1 ∧
  (s.pinstance = none → s.constructions = 0) ∧
  ∀ i r, s.threads i = TPC.done r → s.pinstance = some r

lemma DCLInv_init : DCLInv DCLInit := by
  refine ⟨Nat.zero_le 1, fun _ => rfl, fun i r h => ?_⟩
  simp [DCLInit] at h

lemma DCLInv_step {s t : DCLState} (hinv : DCLInv s) (hstep : DCLStep s t) :
    DCLInv t := by
  obtain ⟨h1, h2, h3⟩ := hinv
  cases hstep with
  | fastHit i a hi hp =>
    refine ⟨h1, fun hn => h2 hn, fun j r hj => ?_⟩
    have hj' : Function.update s.threads i (TPC.done a) j = TPC.done r := hj
    show s.pinstance = some r
    by_cases hij : j = i
    · subst hij
      rw [Function.update_same] at hj'
      cases hj'
      exact hp
    · rw [Function.update_noteq hij] at hj'
      exact h3 j r hj'
  | fastNull i hi hp =>
    refine ⟨h1, fun hn => h2 hn, fun j r hj => ?_⟩
    have hj' : Function.update s.threads i TPC.waiting j = TPC.done r := hj
    show s.pinstance = some r
    by_cases hij : j = i
    · subst hij
      rw [Function.update_same] at hj'
      cases hj'
    · rw [Function.update_noteq hij] at hj'
      exact h3 j r hj'
  | acquire i hi hm =>
    refine ⟨h1, fun hn => h2 hn, fun j r hj => ?_⟩
    have hj' : Function.update s.threads i TPC.locked j = TPC.done r := hj
    show s.pinstance = some r
    by_cases hij : j = i
    · subst hij
      rw [Function.update_same] at hj'
      cases hj'
    · rw [Function.update_noteq hij] at hj'
      exact h3 j r hj'
  | checkHit i a hi hp =>
    refine ⟨h1, fun hn => h2 hn, fun j r hj => ?_⟩
    have hj' : Function.update s.threads i (TPC.done a) j = TPC.done r := hj
    show s.pinstance = some r
    by_cases hij : j = i
    · subst hij
      rw [Function.update_same] at hj'
      cases hj'
      exact hp
    · rw [Function.update_noteq hij] at hj'
      exact h3 j r hj'
  | construct i hi hp =>
    have hz : s.constructions = 0 := h2 hp
    refine ⟨?_, ?_, ?_⟩
    · show s.constructions + 1 ≤ 1
      omega
    · intro hn
      exact absurd (show some s.nextAddr = none from hn) (by simp)
    · intro j r hj
      have hj' : Function.update s.threads i (TPC.done s.nextAddr) j =
          TPC.done r := hj
      show some s.nextAddr = some r
      by_cases hij : j = i
      · subst hij
        rw [Function.update_same] at hj'
        cases hj'
        rfl
      · rw [Function.update_noteq hij] at hj'
        have hcontra := h3 j r hj'
        rw [hp] at hcontra
        cases hcontra

lemma DCLReach_inv {s : DCLState} (h : DCLReach s) : DCLInv s := by
  induction h with
  | init => exact DCLInv_init
  | next _ hstep ih => exact DCLInv_step ih hstep

/-- Claim C5: in the interleaved double-checked-locking model (fast-path
atomic read, then mutex acquisition and re-check before construction), every
reachable state — under unboundedly many concurrent first-time callers — has
at most one constructor execution, and any two threads that have returned
observed the same address. -/
theorem claim_C5 (s : DCLState) (h : DCLReach s) :
    s.constructions ≤ 1 ∧
    ∀ i j r1 r2, s.threads i = TPC.done r1 → s.threads j = TPC.done r2 →
      r1 = r2 := by
  obtain ⟨h1, _, h3⟩ := DCLReach_inv h
  refine ⟨h1, fun i j r1 r2 hi hj => ?_⟩
  have hri := h3 i r1 hi
  have hrj := h3 j r2 hj
  rw [hri] at hrj
  exact Option.some.inj hrj

/-- A demonstration trace: thread 0 reads null, acquires the mutex,
constructs, and returns address 0. -/
def DCLMid1 : DCLState :=
  { pinstance := none, mutexFree := true, nextAddr := 0, constructions := 0,
    threads := Function.update (fun _ => TPC.start) 0 TPC.waiting }

def DCLMid2 : DCLState :=
  { pinstance := none, mutexFree := false, nextAddr := 0, constructions := 0,
    threads := Function.update (Function.update (fun _ => TPC.start) 0
      TPC.waiting) 0 TPC.locked }

def DCLDemo : DCLState :=
  { pinstance := some 0, mutexFree := true, nextAddr := 1, constructions := 1,
    threads := Function.update (Function.update (Function.update
      (fun _ => TPC.start) 0 TPC.waiting) 0 TPC.locked) 0 (TPC.done 0) }

lemma DCLDemo_reach : DCLReach DCLDemo :=
  DCLReach.next
    (DCLReach.next
      (DCLReach.next DCLReach.init
        (DCLStep.fastNull DCLInit 0 rfl rfl))
      (DCLStep.acquire DCLMid1 0 (by simp [DCLMid1]) rfl))
    (DCLStep.construct DCLMid2 0 (by simp [DCLMid2]) rfl)

theorem claim_C5_witness :
    DCLDemo.constructions ≤ 1 ∧
    ∀ i j r1 r2, DCLDemo.threads i = TPC.done r1 →
      DCLDemo.threads j = TPC.done r2 → r1 = r2 :=
  claim_C5 DCLDemo DCLDemo_reach

end DesignPatterns
